import Mathlib

/-
Shallow embedding of the LOF anomaly detector (src/lof/lof.py).

The Python code computes, for a query set X of N points:
  * a (k+1)-nearest-neighbour search of X against itself
    (`NearestNeighbors(n_neighbors=self.k+1).fit(X)`, `nbrs.kneighbors(X)`),
    after which the first column of both result arrays is dropped;
  * k-distances as the last retained column of the distance array;
  * local reachability densities via recomputed pairwise distances and an
    elementwise max with the neighbours' k-distances;
  * LOF scores `np.sum(lrd_value[indices[i]]) / lrd_value[i] / self.k`.

Points are rows of rationals; distance values live in ℝ via `Real.sqrt`.
The nearest-neighbour library is modelled as sorting the row indices by
Euclidean distance with deterministic tie-breaking by index (the spec's
"assumed deterministic tie-breaking"), and as failing with a library error
when it cannot return k+1 neighbours.
-/

abbrev Point := List ℚ

abbrev Dataset := List Point

/-- Row access `X[i, :]` (out-of-range reads, which numpy would reject, return `[]`). -/
def row (X : Dataset) (i : ℕ) : Point := X.getD i []

/-- Squared Euclidean distance `np.sum((p - q)**2)` between two rows. -/
def sqDist (p q : Point) : ℚ := ((p.zip q).map (fun c => (c.1 - c.2) ^ 2)).sum

/-- Euclidean distance `np.sqrt(np.sum((p - q)**2))` between two rows. -/
noncomputable def realDist (p q : Point) : ℝ := Real.sqrt ((sqDist p q : ℚ) : ℝ)

/-- Comparison used by the modelled neighbour search: order candidate indices
`a`, `b` for query point `i` by Euclidean distance to `i` (equivalently by
squared distance), breaking ties by index. -/
def nbrLeB (X : Dataset) (i a b : ℕ) : Bool :=
  decide (sqDist (row X i) (row X a) < sqDist (row X i) (row X b)) ||
    (decide (sqDist (row X i) (row X a) = sqDist (row X i) (row X b)) && decide (a ≤ b))

/-- Model of the neighbour search's candidate ranking for query point `i`:
all row indices of `X`, sorted nearest-first. -/
def sortedIdx (X : Dataset) (i : ℕ) : List ℕ :=
  (List.range X.length).mergeSort (nbrLeB X i)

/-- Row `i` of the index array returned by `kneighbors` with `n_neighbors = k+1`. -/
def nnIdxRow (X : Dataset) (k i : ℕ) : List ℕ := (sortedIdx X i).take (k + 1)

/-- Row `i` of the distance array returned by `kneighbors` with `n_neighbors = k+1`. -/
noncomputable def nnDistRow (X : Dataset) (k i : ℕ) : List ℝ :=
  (nnIdxRow X k i).map (fun j => realDist (row X i) (row X j))

/-- `indices = indices[:, 1:]` — drop the first (assumed self) column. -/
def nbrIndices (X : Dataset) (k i : ℕ) : List ℕ := (nnIdxRow X k i).drop 1

/-- `distances = distances[:, 1:]` — drop the first (assumed self) column. -/
noncomputable def nbrDists (X : Dataset) (k i : ℕ) : List ℝ := (nnDistRow X k i).drop 1

/-- `k_dists = distances[:, -1]` — the last retained neighbour distance of point `i`. -/
noncomputable def kDist (X : Dataset) (k i : ℕ) : ℝ := (nbrDists X k i).getLastD 0

/-- `temp = np.sqrt(np.sum((X[i,:] - X[indices[i],:])**2, 1))` — the distances from
point `i` to its retained neighbours, recomputed from raw coordinates inside the
lrd loop. -/
noncomputable def tempRow (X : Dataset) (k i : ℕ) : List ℝ :=
  (nbrIndices X k i).map (fun j =>
    Real.sqrt (((((row X i).zip (row X j)).map (fun c => (c.1 - c.2) ^ 2)).sum : ℚ) : ℝ))

/-- `reachability_dists = np.max(np.vstack([temp, k_dists[indices[i]]]), 0)` —
elementwise max of the recomputed distances and the neighbours' k-distances. -/
noncomputable def reachRow (X : Dataset) (k i : ℕ) : List ℝ :=
  (tempRow X k i).zipWith max ((nbrIndices X k i).map (fun j => kDist X k j))

/-- `lrd_value[i] = self.k / sum(reachability_dists)`. -/
noncomputable def lrdValue (X : Dataset) (k i : ℕ) : ℝ :=
  (k : ℝ) / (reachRow X k i).sum

/-- `lof[i] = np.sum(lrd_value[indices[i]]) / lrd_value[i] / self.k`. -/
noncomputable def lofScore (X : Dataset) (k i : ℕ) : ℝ :=
  ((nbrIndices X k i).map (fun j => lrdValue X k j)).sum / lrdValue X k i / (k : ℝ)

/-- Failure modes. `invalidParameter` is the `ValueError` raised by `fit`;
`libraryError` stands for the exceptions raised inside the scikit-learn
neighbour search (e.g. `n_neighbors > n_samples`); `insufficientData` and
`degenerateDensity` are the named error kinds the spec asks for, which the
code itself never raises. -/
inductive LofError where
  | invalidParameter
  | insufficientData
  | degenerateDensity
  | libraryError
deriving DecidableEq

/-- The body of `LOF.predict` for a validated integer `k ≥ 1`: the neighbour
search fails with a library error when it cannot return `k+1` neighbours
(`N ≤ k`); otherwise the N scores are produced in row order. -/
noncomputable def predictE (k : ℕ) (X : Dataset) : Except LofError (List ℝ) :=
  if X.length < k + 1 then .error .libraryError
  else .ok ((List.range X.length).map (fun i => lofScore X k i))

/-- A Python number as far as `fit`'s validation can observe it: an `int` or a
non-integer numeric (e.g. `2.5`). -/
inductive PyNum where
  | int (n : ℤ)
  | float (q : ℚ)
deriving DecidableEq

/-- The spec-side notion "k is a positive integer". -/
def PyNum.isPosInt : PyNum → Bool
  | .int n => decide (0 < n)
  | .float _ => false

/-- The code's first test `self.k <= 0`. -/
def PyNum.leZero : PyNum → Bool
  | .int n => decide (n ≤ 0)
  | .float q => decide (q ≤ 0)

/-- The code's second test `isinstance(self.k, int)`. -/
def PyNum.isIntTy : PyNum → Bool
  | .int _ => true
  | .float _ => false

/-- Detector state: the constructor argument `k` and the dataset reference
`self.X_` stored by `fit`. -/
structure LOF where
  k : PyNum
  X_ : Option Dataset := none
deriving DecidableEq

/-- `LOF.fit`: raise `ValueError` when `self.k <= 0 or not isinstance(self.k, int)`,
otherwise store the dataset reference and return `self`. -/
def LOF.fit (self : LOF) (X : Option Dataset) : Except LofError LOF :=
  if self.k.leZero || !self.k.isIntTy then .error .invalidParameter
  else .ok { self with X_ := X }

/-- `LOF.predict` as a state-passing function: the method writes no attribute of
`self`, so the state component is returned unchanged, and the score component
uses only `self.k` and the argument `X`. A non-positive or non-integer `k`
makes the scikit-learn calls themselves fail (negative `n_neighbors`, a
zero-width distance array, or a non-integer `n_neighbors`), modelled as a
library error. -/
noncomputable def LOF.predictS (self : LOF) (X : Dataset) :
    LOF × Except LofError (List ℝ) :=
  (self,
    match self.k with
    | .int n => if n ≤ 0 then .error .libraryError else predictE n.toNat X
    | .float _ => .error .libraryError)

/-
Basic facts about the neighbour ordering and the modelled search.
-/

theorem nbrLeB_trans (X : Dataset) (i : ℕ) :
    ∀ a b c : ℕ, nbrLeB X i a b = true → nbrLeB X i b c = true → nbrLeB X i a c = true := by
  intro a b c hab hbc
  simp only [nbrLeB, Bool.or_eq_true, Bool.and_eq_true, decide_eq_true_eq] at *
  rcases hab with h1 | ⟨h1, h2⟩ <;> rcases hbc with h3 | ⟨h3, h4⟩
  · exact Or.inl (lt_trans h1 h3)
  · exact Or.inl (h3 ▸ h1)
  · exact Or.inl (h1 ▸ h3)
  · exact Or.inr ⟨h1.trans h3, le_trans h2 h4⟩

theorem nbrLeB_total (X : Dataset) (i : ℕ) :
    ∀ a b : ℕ, (nbrLeB X i a b || nbrLeB X i b a) = true := by
  intro a b
  simp only [nbrLeB, Bool.or_eq_true, Bool.and_eq_true, decide_eq_true_eq]
  rcases lt_trichotomy (sqDist (row X i) (row X a)) (sqDist (row X i) (row X b)) with h | h | h
  · exact Or.inl (Or.inl h)
  · rcases le_total a b with hle | hle
    · exact Or.inl (Or.inr ⟨h, hle⟩)
    · exact Or.inr (Or.inr ⟨h.symm, hle⟩)
  · exact Or.inr (Or.inl h)

theorem nbrLeB_antisymm (X : Dataset) (i a b : ℕ)
    (h1 : nbrLeB X i a b = true) (h2 : nbrLeB X i b a = true) : a = b := by
  simp only [nbrLeB, Bool.or_eq_true, Bool.and_eq_true, decide_eq_true_eq] at h1 h2
  rcases h1 with h1 | ⟨h1, h1'⟩ <;> rcases h2 with h2 | ⟨h2, h2'⟩
  · exact absurd (lt_trans h1 h2) (lt_irrefl _)
  · rw [h2] at h1; exact absurd h1 (lt_irrefl _)
  · rw [h1] at h2; exact absurd h2 (lt_irrefl _)
  · exact le_antisymm h1' h2'

theorem sortedIdx_sorted (X : Dataset) (i : ℕ) :
    (sortedIdx X i).Pairwise (fun a b => nbrLeB X i a b = true) :=
  List.sorted_mergeSort (nbrLeB_trans X i) (nbrLeB_total X i) _

theorem sortedIdx_perm (X : Dataset) (i : ℕ) :
    (sortedIdx X i).Perm (List.range X.length) :=
  List.mergeSort_perm _ _

theorem sortedIdx_length (X : Dataset) (i : ℕ) : (sortedIdx X i).length = X.length :=
  (sortedIdx_perm X i).length_eq.trans (List.length_range _)

theorem sortedIdx_nodup (X : Dataset) (i : ℕ) : (sortedIdx X i).Nodup :=
  (sortedIdx_perm X i).symm.nodup (List.nodup_range _)

/-- The modelled search result is the unique list that is a permutation of the
row indices and is sorted for the neighbour ordering; this lets concrete
instances be computed by `decide`. -/
theorem sortedIdx_eq (X : Dataset) (i : ℕ) (l : List ℕ)
    (hp : l.Perm (List.range X.length))
    (hs : l.Pairwise (fun a b => nbrLeB X i a b = true)) :
    sortedIdx X i = l :=
  @List.eq_of_perm_of_sorted ℕ (fun a b => nbrLeB X i a b = true)
    ⟨fun a b h1 h2 => nbrLeB_antisymm X i a b h1 h2⟩ _ _
    ((sortedIdx_perm X i).trans hp.symm) (sortedIdx_sorted X i) hs

theorem sqDist_nonneg (p q : Point) : 0 ≤ sqDist p q := by
  apply List.sum_nonneg
  intro x hx
  simp only [List.mem_map] at hx
  obtain ⟨c, _, rfl⟩ := hx
  positivity

theorem sqDist_self (p : Point) : sqDist p p = 0 := by
  unfold sqDist
  induction p with
  | nil => rfl
  | cons a t ih => simpa using ih

theorem realDist_mono (X : Dataset) (i a b : ℕ) (h : nbrLeB X i a b = true) :
    realDist (row X i) (row X a) ≤ realDist (row X i) (row X b) := by
  have hq : sqDist (row X i) (row X a) ≤ sqDist (row X i) (row X b) := by
    simp only [nbrLeB, Bool.or_eq_true, Bool.and_eq_true, decide_eq_true_eq] at h
    rcases h with h | ⟨h, _⟩
    · exact le_of_lt h
    · exact le_of_eq h
  exact Real.sqrt_le_sqrt (by exact_mod_cast hq)

/-- The recomputed distance row of the lrd loop is the map of the Euclidean
distance over the retained neighbour indices. -/
theorem tempRow_eq_map (X : Dataset) (k i : ℕ) :
    tempRow X k i = (nbrIndices X k i).map (fun j => realDist (row X i) (row X j)) := rfl

/-- The retained columns of the search's distance array are the distances to the
retained neighbour indices. -/
theorem nbrDists_eq_map (X : Dataset) (k i : ℕ) :
    nbrDists X k i = (nbrIndices X k i).map (fun j => realDist (row X i) (row X j)) := by
  unfold nbrDists nnDistRow nbrIndices
  exact (List.map_drop _ _ _).symm

theorem nbrIndices_sorted (X : Dataset) (k i : ℕ) :
    (nbrIndices X k i).Pairwise (fun a b => nbrLeB X i a b = true) :=
  List.Pairwise.sublist ((List.drop_sublist _ _).trans (List.take_sublist _ _))
    (sortedIdx_sorted X i)

theorem nbrDists_sorted (X : Dataset) (k i : ℕ) :
    (nbrDists X k i).Pairwise (· ≤ ·) := by
  rw [nbrDists_eq_map]
  exact List.Pairwise.map _ (fun a b h => realDist_mono X i a b h) (nbrIndices_sorted X k i)

theorem nbrIndices_length (X : Dataset) (k i : ℕ) (hN : k + 1 ≤ X.length) :
    (nbrIndices X k i).length = k := by
  unfold nbrIndices nnIdxRow
  rw [List.length_drop, List.length_take, sortedIdx_length, Nat.min_eq_left hN]
  omega

theorem nbrDists_length (X : Dataset) (k i : ℕ) (hN : k + 1 ≤ X.length) :
    (nbrDists X k i).length = k := by
  rw [nbrDists_eq_map, List.length_map, nbrIndices_length X k i hN]

/-- In a `≤`-sorted nonempty list, the last element is a member and an upper
bound of the list. -/
theorem getLastD_mem_le : ∀ l : List ℝ, l.Pairwise (· ≤ ·) → l ≠ [] →
    l.getLastD 0 ∈ l ∧ ∀ x ∈ l, x ≤ l.getLastD 0 := by
  intro l
  induction l with
  | nil => intro _ hne; exact absurd rfl hne
  | cons a t ih =>
    intro h _
    have hha : ∀ y ∈ t, a ≤ y := (List.pairwise_cons.mp h).1
    have hpt : t.Pairwise (· ≤ ·) := (List.pairwise_cons.mp h).2
    rcases t with _ | ⟨b, m⟩
    · refine ⟨by simp [List.getLastD], ?_⟩
      intro x hx
      simp only [List.mem_singleton] at hx
      simp [hx, List.getLastD]
    · have heq : ((a :: b :: m).getLastD 0) = ((b :: m).getLastD 0) := by
        simp [List.getLastD_cons]
      obtain ⟨hmem, hbound⟩ := ih hpt (by simp)
      refine ⟨by rw [heq]; exact List.mem_cons_of_mem _ hmem, ?_⟩
      intro x hx
      rcases List.mem_cons.mp hx with rfl | hx
      · rw [heq]; exact hha _ hmem
      · rw [heq]; exact hbound x hx

/-- When every other point of `X` is at strictly positive distance from point
`i`, the modelled search ranks `i` itself first (at distance 0). -/
theorem sortedIdx_head (X : Dataset) (i : ℕ) (hi : i < X.length)
    (hdist : ∀ j, j < X.length → j ≠ i → 0 < sqDist (row X i) (row X j)) :
    (sortedIdx X i).head? = some i := by
  obtain ⟨h, t, hht⟩ : ∃ h t, sortedIdx X i = h :: t := by
    cases hcase : sortedIdx X i with
    | nil =>
      have hlen := sortedIdx_length X i
      rw [hcase] at hlen
      simp at hlen
      omega
    | cons h t => exact ⟨h, t, rfl⟩
  have hmem : i ∈ sortedIdx X i := (sortedIdx_perm X i).mem_iff.mpr (List.mem_range.mpr hi)
  have hhmem : h ∈ sortedIdx X i := by rw [hht]; exact List.mem_cons_self _ _
  have hhlt : h < X.length := List.mem_range.mp ((sortedIdx_perm X i).mem_iff.mp hhmem)
  by_cases hih : i = h
  · rw [hht, hih]; rfl
  · exfalso
    have hit : i ∈ t := by
      rcases List.mem_cons.mp (hht ▸ hmem) with h1 | h1
      · exact absurd h1 hih
      · exact h1
    have hpw := sortedIdx_sorted X i
    rw [hht] at hpw
    have hle : nbrLeB X i h i = true := (List.pairwise_cons.mp hpw).1 i hit
    simp only [nbrLeB, Bool.or_eq_true, Bool.and_eq_true, decide_eq_true_eq] at hle
    have hpos : 0 < sqDist (row X i) (row X h) := hdist h hhlt (fun he => hih he.symm)
    rcases hle with hlt | ⟨heq, _⟩
    · rw [sqDist_self] at hlt
      exact absurd (lt_trans hpos hlt) (lt_irrefl _)
    · rw [sqDist_self] at heq
      rw [heq] at hpos
      exact absurd hpos (lt_irrefl _)

/-- With pairwise-distinct points, the dropped first column is the query point
itself, so the retained neighbour indices exclude `i`. -/
theorem self_not_mem_nbrIndices (X : Dataset) (k i : ℕ) (hi : i < X.length)
    (hdist : ∀ j, j < X.length → j ≠ i → 0 < sqDist (row X i) (row X j)) :
    i ∉ nbrIndices X k i := by
  obtain ⟨t, hht⟩ : ∃ t, sortedIdx X i = i :: t := by
    have hh := sortedIdx_head X i hi hdist
    cases hcase : sortedIdx X i with
    | nil => rw [hcase] at hh; exact absurd hh (by simp)
    | cons a t =>
      rw [hcase] at hh
      simp only [List.head?_cons, Option.some.injEq] at hh
      exact ⟨t, by rw [hh]⟩
  have hnd := sortedIdx_nodup X i
  rw [hht] at hnd
  have hnotin : i ∉ t := (List.nodup_cons.mp hnd).1
  unfold nbrIndices nnIdxRow
  rw [hht, List.take_succ_cons, List.drop_succ_cons, List.drop_zero]
  intro hmemtake
  exact hnotin (List.mem_of_mem_take hmemtake)

/-
Concrete datasets for instantiations.
-/

/-- Three pairwise-distinct 1-D points. -/
def dsDistinct : Dataset := [[0], [1], [3]]

/-- A duplicate pair followed by a distinct point. -/
def dsDupLead : Dataset := [[0], [0], [1]]

/-- Three identical points (exact-duplicate pathology). -/
def dsDup3 : Dataset := [[0], [0], [0]]

/-- A single point (fewer than k+1 samples for every positive k). -/
def dsSingle : Dataset := [[0]]

/-- Two distinct points. -/
def dsPair : Dataset := [[0], [1]]

theorem sortedIdx_dsDup3_0 : sortedIdx dsDup3 0 = [0, 1, 2] :=
  sortedIdx_eq _ _ _ (by decide)
    (by norm_num [List.pairwise_cons, nbrLeB, sqDist, row, dsDup3])

theorem sortedIdx_dsDup3_1 : sortedIdx dsDup3 1 = [0, 1, 2] :=
  sortedIdx_eq _ _ _ (by decide)
    (by norm_num [List.pairwise_cons, nbrLeB, sqDist, row, dsDup3])

theorem sortedIdx_dsDupLead_1 : sortedIdx dsDupLead 1 = [0, 1, 2] :=
  sortedIdx_eq _ _ _ (by decide)
    (by norm_num [List.pairwise_cons, nbrLeB, sqDist, row, dsDupLead])

/-
Claim theorems.
-/

/-- C1: for every dataset accepted by `predict`, the result has one score per
input row, in the same row order, and the i-th score equals the sum of the lrd
values of point i's neighbours divided by (lrd(i) · k). -/
theorem predict_scores_shape_and_formula (k : ℕ) (X : Dataset) (l : List ℝ)
    (h : predictE k X = Except.ok l) :
    l.length = X.length ∧ ∀ i, i < X.length →
      l.getD i 0 =
        ((nbrIndices X k i).map (fun j => lrdValue X k j)).sum
          / (lrdValue X k i * (k : ℝ)) := by
  unfold predictE at h
  by_cases hN : X.length < k + 1
  · rw [if_pos hN] at h
    exact absurd h (by simp)
  · rw [if_neg hN] at h
    have hl : (List.range X.length).map (fun i => lofScore X k i) = l := by
      injection h
    subst hl
    constructor
    · rw [List.length_map, List.length_range]
    · intro i hi
      have hlt : i < ((List.range X.length).map (fun i => lofScore X k i)).length := by
        rw [List.length_map, List.length_range]
        exact hi
      rw [List.getD_eq_getElem _ _ hlt, List.getElem_map, List.getElem_range]
      unfold lofScore
      rw [div_div]

theorem predict_scores_shape_and_formula_witness :
    predictE 1 dsPair = Except.ok ((List.range dsPair.length).map (fun i => lofScore dsPair 1 i))
    ∧ (((List.range dsPair.length).map (fun i => lofScore dsPair 1 i)).length = dsPair.length
      ∧ ∀ i, i < dsPair.length →
        ((List.range dsPair.length).map (fun i => lofScore dsPair 1 i)).getD i 0 =
          ((nbrIndices dsPair 1 i).map (fun j => lrdValue dsPair 1 j)).sum
            / (lrdValue dsPair 1 i * ((1 : ℕ) : ℝ))) :=
  ⟨rfl, predict_scores_shape_and_formula 1 dsPair _ rfl⟩

/-- C2: the local reachability density of point i is k divided by the sum,
over i's neighbours j, of max(dist(i,j), k-distance(j)). -/
theorem lrd_formula (X : Dataset) (k i : ℕ) :
    lrdValue X k i =
      (k : ℝ) / ((nbrIndices X k i).map
        (fun j => max (realDist (row X i) (row X j)) (kDist X k j))).sum := by
  unfold lrdValue reachRow
  rw [tempRow_eq_map, List.zipWith_map, List.zipWith_same]

/-- C10: the distances recomputed from raw coordinates inside the lrd loop
coincide with the distance columns already returned by the neighbour search,
and computing the lrd from the search's distance array gives the same value. -/
theorem recomputed_dists_match_search (X : Dataset) (k i : ℕ) :
    tempRow X k i = nbrDists X k i
    ∧ (k : ℝ) / ((nbrDists X k i).zipWith max
        ((nbrIndices X k i).map (fun j => kDist X k j))).sum = lrdValue X k i := by
  have h : tempRow X k i = nbrDists X k i := by
    rw [tempRow_eq_map, nbrDists_eq_map]
  refine ⟨h, ?_⟩
  unfold lrdValue reachRow
  rw [h]

/-- C4: the k-distance of point i is the maximum of point i's own
neighbour-distance list: it is a member of the list and bounds every entry. -/
theorem kdist_is_max (X : Dataset) (k i : ℕ) (hk : 1 ≤ k) (hN : k + 1 ≤ X.length) :
    kDist X k i ∈ nbrDists X k i ∧ ∀ d ∈ nbrDists X k i, d ≤ kDist X k i := by
  have hne : nbrDists X k i ≠ [] := by
    intro hnil
    have hlen := nbrDists_length X k i hN
    rw [hnil] at hlen
    simp at hlen
    omega
  exact getLastD_mem_le _ (nbrDists_sorted X k i) hne

theorem kdist_is_max_witness :
    (1 ≤ 1 ∧ 1 + 1 ≤ dsDistinct.length)
    ∧ (kDist dsDistinct 1 0 ∈ nbrDists dsDistinct 1 0
      ∧ ∀ d ∈ nbrDists dsDistinct 1 0, d ≤ kDist dsDistinct 1 0) :=
  ⟨by decide, kdist_is_max dsDistinct 1 0 (by decide) (by decide)⟩

/-- C8: the score array is a function of (k, X) only: two detector states with
the same `k` produce identical scores on the same `X`; in particular repeated
calls with identical inputs are deterministic. -/
theorem predict_deterministic (s₁ s₂ : LOF) (X : Dataset) (h : s₁.k = s₂.k) :
    (LOF.predictS s₁ X).2 = (LOF.predictS s₂ X).2 := by
  obtain ⟨k1, F1⟩ := s₁
  obtain ⟨k2, F2⟩ := s₂
  have hk : k1 = k2 := h
  subst hk
  rfl

theorem predict_deterministic_witness :
    (LOF.mk (PyNum.int 1) none).k = (LOF.mk (PyNum.int 1) (some dsDistinct)).k
    ∧ (LOF.predictS (LOF.mk (PyNum.int 1) none) dsDistinct).2
        = (LOF.predictS (LOF.mk (PyNum.int 1) (some dsDistinct)) dsDistinct).2 :=
  ⟨rfl, predict_deterministic _ _ dsDistinct rfl⟩

/-- C9: predict has no side effects on the detector: the state (both `k` and
the stored fit dataset) is returned unchanged, and the score component does
not depend on the stored fit dataset. -/
theorem predict_no_side_effects (s : LOF) (X : Dataset) :
    (LOF.predictS s X).1 = s
    ∧ (LOF.predictS s X).2 = (LOF.predictS ⟨s.k, none⟩ X).2 := by
  cases s
  exact ⟨rfl, rfl⟩

/-- C5: fit fails exactly when k is not a positive integer, at fit time
(the error comes out of `fit` itself), and on success it returns the detector
with the same `k` (and the dataset reference stored). -/
theorem fit_validation (s : LOF) (Xo : Option Dataset) :
    (LOF.fit s Xo = Except.error LofError.invalidParameter ↔ s.k.isPosInt = false)
    ∧ (s.k.isPosInt = true → LOF.fit s Xo = Except.ok ⟨s.k, Xo⟩) := by
  obtain ⟨kp, Xf⟩ := s
  cases kp with
  | int n =>
    by_cases hn : n ≤ 0
    · constructor
      · simp [LOF.fit, PyNum.leZero, PyNum.isIntTy, PyNum.isPosInt, hn, not_lt.mpr hn]
      · intro hpos
        simp only [PyNum.isPosInt, decide_eq_true_eq] at hpos
        exact absurd hpos (not_lt.mpr hn)
    · constructor
      · simp [LOF.fit, PyNum.leZero, PyNum.isIntTy, PyNum.isPosInt, hn, lt_of_not_le hn]
      · intro _
        simp [LOF.fit, PyNum.leZero, PyNum.isIntTy, hn]
  | float q =>
    constructor
    · simp [LOF.fit, PyNum.leZero, PyNum.isIntTy, PyNum.isPosInt]
    · intro hpos
      simp [PyNum.isPosInt] at hpos

theorem fit_validation_witness :
    PyNum.isPosInt (PyNum.float (5 / 2)) = false
    ∧ LOF.fit (LOF.mk (PyNum.float (5 / 2)) none) none
        = Except.error LofError.invalidParameter :=
  ⟨rfl, (fit_validation (LOF.mk (PyNum.float (5 / 2)) none) none).1.mpr rfl⟩

/-- C6 (actual code behaviour at the failing input): with a dataset of N ≤ k
points the predict body fails with the propagated library error, which is not
the named `InsufficientData` error the spec requires. -/
theorem predict_insufficient_data_behaviour :
    predictE 1 dsSingle = Except.error LofError.libraryError
    ∧ LofError.libraryError ≠ LofError.insufficientData :=
  ⟨rfl, by decide⟩

/-- C7 (actual code behaviour at the failing input): on three identical points
the reachability-distance sum of point 0 is exactly 0, yet predict returns
scores normally — the division by the zero sum is performed with no
`DegenerateDensity` error and no clamp. -/
theorem predict_degenerate_density_behaviour :
    (reachRow dsDup3 1 0).sum = 0 ∧ (predictE 1 dsDup3).isOk = true := by
  constructor
  · have h0 : nbrIndices dsDup3 1 0 = [1] := by
      unfold nbrIndices nnIdxRow
      rw [sortedIdx_dsDup3_0]
      rfl
    have h1 : nbrIndices dsDup3 1 1 = [1] := by
      unfold nbrIndices nnIdxRow
      rw [sortedIdx_dsDup3_1]
      rfl
    have hsq01 : sqDist (row dsDup3 0) (row dsDup3 1) = 0 := by
      norm_num [sqDist, row, dsDup3]
    have hkd : kDist dsDup3 1 1 = 0 := by
      unfold kDist
      rw [nbrDists_eq_map, h1]
      simp [realDist, sqDist_self, Real.sqrt_zero]
    unfold reachRow
    rw [tempRow_eq_map, h0]
    simp [realDist, hsq01, hkd, Real.sqrt_zero]
  · rfl

/-- C3 (amended): neighbours are computed within the query set X itself — the
stored fit dataset never influences the result — and with `N ≥ k+1` the search
keeps exactly `k` neighbour indices and `k` distances per point, ordered
nearest-first; when every other point is at strictly positive distance from
point `i` (no exact duplicates), the first-ranked result is `i` itself at
distance 0, and dropping it leaves a neighbour list excluding `i`. -/
theorem neighbours_within_query (X : Dataset) (k i : ℕ) (hN : k + 1 ≤ X.length)
    (hi : i < X.length)
    (hdist : ∀ j, j < X.length → j ≠ i → 0 < sqDist (row X i) (row X j)) :
    (sortedIdx X i).head? = some i
    ∧ (nbrIndices X k i).length = k
    ∧ (nbrDists X k i).length = k
    ∧ i ∉ nbrIndices X k i
    ∧ (nbrDists X k i).Pairwise (· ≤ ·)
    ∧ ∀ (kp : PyNum) (F F' : Option Dataset),
        (LOF.predictS ⟨kp, F⟩ X).2 = (LOF.predictS ⟨kp, F'⟩ X).2 :=
  ⟨sortedIdx_head X i hi hdist, nbrIndices_length X k i hN, nbrDists_length X k i hN,
    self_not_mem_nbrIndices X k i hi hdist, nbrDists_sorted X k i,
    fun _ _ _ => rfl⟩

theorem neighbours_within_query_witness :
    (1 + 1 ≤ dsDistinct.length ∧ 0 < dsDistinct.length
      ∧ ∀ j, j < dsDistinct.length → j ≠ 0 → 0 < sqDist (row dsDistinct 0) (row dsDistinct j))
    ∧ ((sortedIdx dsDistinct 0).head? = some 0
      ∧ (nbrIndices dsDistinct 1 0).length = 1
      ∧ (nbrDists dsDistinct 1 0).length = 1
      ∧ 0 ∉ nbrIndices dsDistinct 1 0
      ∧ (nbrDists dsDistinct 1 0).Pairwise (· ≤ ·)
      ∧ ∀ (kp : PyNum) (F F' : Option Dataset),
          (LOF.predictS ⟨kp, F⟩ dsDistinct).2 = (LOF.predictS ⟨kp, F'⟩ dsDistinct).2) :=
  ⟨⟨by decide, by decide, by
      intro j hj hj0
      have hj3 : j < 3 := hj
      interval_cases j
      · exact absurd rfl hj0
      · norm_num [sqDist, row, dsDistinct]
      · norm_num [sqDist, row, dsDistinct]⟩,
    neighbours_within_query dsDistinct 1 0 (by decide) (by decide)
      (by
        intro j hj hj0
        have hj3 : j < 3 := hj
        interval_cases j
        · exact absurd rfl hj0
        · norm_num [sqDist, row, dsDistinct]
        · norm_num [sqDist, row, dsDistinct])⟩

/-- C3 counterexample: in a dataset whose first two points are exact
duplicates, the first-ranked result for point 1 is point 0 — not point 1
itself at distance 0 — and after dropping the first column, point 1 remains
among its own neighbour indices, contradicting the claim. -/
theorem neighbours_within_query_counterexample :
    (sortedIdx dsDupLead 1).head? ≠ some 1 ∧ 1 ∈ nbrIndices dsDupLead 1 1 := by
  constructor
  · rw [sortedIdx_dsDupLead_1]
    decide
  · unfold nbrIndices nnIdxRow
    rw [sortedIdx_dsDupLead_1]
    decide
